import Mathlib

/-!
# Shallow embedding of `prizm/console.py`

The module defines a single class `Console` holding five attributes
(`directory`, `terminal`, `_log`, `path`, `labels`) and a handful of
methods that print to the terminal and/or append lines to a log file.
We embed the class as a structure and every method as a Lean function.

Side effects are made explicit as a trace of `Event`s:
* `Event.term s` — the exact string written to standard output by a
  `print` call (Python `print(x, end=e)` writes `str(x) ++ e`);
* `Event.termColor c args` — a call to one of the external color-printing
  collaborators (`GRE`, `RED`, …) imported from `prizm.util.color`,
  which are not part of this repository's source;
* `Event.fileAppend p s` — the string `s` appended to the file at path
  `p` (the body of the `with open(path, "a")` block in `_write`).

Methods that only produce output return a `List Event`; the two
state-changing methods (`label`, `set_log`) return the new `Console`.
Arguments (`*args`) are embedded as their string representations
(`List String`), since every use site maps `str` over them or prints
them directly.
-/

/-- An observable side effect of a `Console` method. -/
inductive Event where
  | term (s : String)
  | termColor (color : String) (args : List String)
  | fileAppend (path : String) (content : String)
deriving DecidableEq

/-- Is the event a file append (as opposed to terminal output)? -/
def Event.isFile : Event → Bool
  | .fileAppend _ _ => true
  | _ => false

/-- The file-append events of a trace. -/
def fileEvents (es : List Event) : List Event :=
  es.filter Event.isFile

/-- The terminal-output events of a trace. -/
def termEvents (es : List Event) : List Event :=
  es.filter (fun e => !e.isFile)

/-- The paths of the files appended to by a trace. -/
def appendPaths (es : List Event) : List String :=
  es.filterMap (fun e => match e with | .fileAppend p _ => some p | _ => none)

/-- The state of `prizm.console.Console`: attributes `directory`,
`terminal`, `_log`, `path` and `labels` as assigned by `__init__`.
`path` is `Option String` because the methods guard on
`self.path is not None`; `__init__` always assigns a string, so every
constructed instance has `path = some _`. -/
structure Console where
  directory : String
  terminal : Bool
  _log : Bool
  path : Option String
  labels : List String
deriving DecidableEq

namespace Console

/-- `Console.__init__(directory, terminal)`: stores the directory (the
`path_exists` directory check either succeeds or raises before any state
matters, so the success path is embedded), sets `terminal`, initializes
`self._log = True`, computes `self.path = directory + str(timestamp) + ".log"`
from the current millisecond timestamp (passed here as a parameter), and
sets `labels` to the empty list. -/
def init (directory : String) (terminal : Bool) (timestamp : Nat) : Console :=
  { directory := directory
    terminal := terminal
    _log := true
    path := some (directory ++ toString timestamp ++ ".log")
    labels := [] }

/-- `Console._write(*args)`: if `self.path` is not `None`, builds
`path = f"./log/<self.path>"` and appends `" ".join(map(str, args)) + "\n"`
to the file at that path (opened in append mode in a `with` block). -/
def _write (c : Console) (args : List String) : List Event :=
  match c.path with
  | some p => [Event.fileAppend ("./log/" ++ p) (String.intercalate " " args ++ "\n")]
  | none => []

/-- `Console.label(label)`: appends the label to `self.labels`. -/
def label (c : Console) (l : String) : Console :=
  { c with labels := c.labels ++ [l] }

/-- `Console.warning(*args)`: prints the bold-magenta prefix with
`end=""`, then each argument with `end=" "`, then calls
`self._write("WARNING:", *args)`. -/
def warning (c : Console) (args : List String) : List Event :=
  (Event.term "\x1b[1;35mWARNING: \x1b[0m" :: args.map (fun a => Event.term (a ++ " ")))
    ++ c._write ("WARNING:" :: args)

/-- `Console.error(*args)`: prints the bold-red prefix with `end=""`,
then each argument with `end=" "`, then calls
`self._write("ERROR:", *args)`. -/
def error (c : Console) (args : List String) : List Event :=
  (Event.term "\x1b[1;31mERROR: \x1b[0m" :: args.map (fun a => Event.term (a ++ " ")))
    ++ c._write ("ERROR:" :: args)

/-- `Console.err(*args)`: alias for `error`. -/
def err (c : Console) (args : List String) : List Event :=
  c.error args

/-- `Console.warn(*args)`: alias for `warning`. -/
def warn (c : Console) (args : List String) : List Event :=
  c.warning args

/-- `Console.set_log(log_gate)`: assigns `self._log = log_gate`. -/
def set_log (c : Console) (log_gate : Bool) : Console :=
  { c with _log := log_gate }

/-- The twelve recognized color names of `_color_switch`. -/
def colorNames : List String :=
  ["GRE", "RED", "BLU", "YEL", "MAG", "CYA", "BGRE", "BRED", "BBLU", "BYEL", "BMAG", "BCYA"]

/-- `Console._color_switch(color, *args)`: with `color=None` it prints
`*args` with default `print` semantics (space-joined, newline); otherwise
it walks the `elif` chain and calls the matching color collaborator, or
falls through with no effect when no branch matches. The method never
reads `self`. -/
def _color_switch (color : Option String) (args : List String) : List Event :=
  match color with
  | none => [Event.term (String.intercalate " " args ++ "\n")]
  | some c =>
    if c = "GRE" then [Event.termColor "GRE" args]
    else if c = "RED" then [Event.termColor "RED" args]
    else if c = "BLU" then [Event.termColor "BLU" args]
    else if c = "YEL" then [Event.termColor "YEL" args]
    else if c = "MAG" then [Event.termColor "MAG" args]
    else if c = "CYA" then [Event.termColor "CYA" args]
    else if c = "BGRE" then [Event.termColor "BGRE" args]
    else if c = "BRED" then [Event.termColor "BRED" args]
    else if c = "BBLU" then [Event.termColor "BBLU" args]
    else if c = "BYEL" then [Event.termColor "BYEL" args]
    else if c = "BMAG" then [Event.termColor "BMAG" args]
    else if c = "BCYA" then [Event.termColor "BCYA" args]
    else []

/-- `Console.out(*args, color=None)`: calls `_color_switch`, then, if
`self.path` is not `None`, calls `self._write(*args)`. -/
def out (c : Console) (args : List String) (color : Option String) : List Event :=
  _color_switch color args ++
    (match c.path with
     | some _ => c._write args
     | none => [])

/-- `Console.log(*args, color=None, label=None)`: the gated logging
method, embedding the nested `if` structure of the source verbatim. -/
def log (c : Console) (args : List String) (color : Option String)
    (lbl : Option String) : List Event :=
  match lbl with
  | some l =>
    if l ∈ c.labels then
      if c.terminal = true then
        _color_switch color args ++
          (match c.path with
           | some _ => c._write args
           | none => [])
      else
        match c.path with
        | some _ => c._write args
        | none => []
    else []
  | none =>
    if c.terminal = true then
      _color_switch color args ++
        (match c.path with
         | some _ => c._write args
         | none => [])
    else
      match c.path with
      | some _ => c._write args
      | none => []

end Console

/-- A call to one of the public methods of `Console`, used to talk about
whole call sequences. -/
inductive Cmd where
  | warning (args : List String)
  | error (args : List String)
  | out (args : List String) (color : Option String)
  | log (args : List String) (color : Option String) (lbl : Option String)
  | label (l : String)
  | set_log (b : Bool)
deriving DecidableEq

/-- Execute one call: the events it emits and the state after it.  Only
`label` and `set_log` assign attributes; the output methods never
mutate `self`. -/
def step (c : Console) : Cmd → List Event × Console
  | .warning a => (c.warning a, c)
  | .error a => (c.error a, c)
  | .out a col => (c.out a col, c)
  | .log a col lbl => (c.log a col lbl, c)
  | .label l => ([], c.label l)
  | .set_log b => ([], c.set_log b)

/-- Execute a call sequence from a state, concatenating the traces. -/
def run (c : Console) : List Cmd → List Event
  | [] => []
  | k :: ks =>
    let r := step c k
    r.1 ++ run r.2 ks

/-- Two calls that are identical except possibly for the boolean passed
to `set_log`. -/
def sameModuloSetLog : Cmd → Cmd → Bool
  | .set_log _, .set_log _ => true
  | k₁, k₂ => decide (k₁ = k₂)

/-- Two call sequences that are pointwise identical except for the
booleans passed to `set_log`. -/
def sameCmdsModuloSetLog : List Cmd → List Cmd → Bool
  | [], [] => true
  | k₁ :: t₁, k₂ :: t₂ => sameModuloSetLog k₁ k₂ && sameCmdsModuloSetLog t₁ t₂
  | _, _ => false

/-- Two states that agree on every attribute except possibly `_log`. -/
def agreeExceptLog (c₁ c₂ : Console) : Prop :=
  c₁.directory = c₂.directory ∧ c₁.terminal = c₂.terminal ∧
    c₁.path = c₂.path ∧ c₁.labels = c₂.labels

/-- `Console.label` applied `n` times with the same label. -/
def addLabels (c : Console) (L : String) : Nat → Console
  | 0 => c
  | n + 1 => (addLabels c L n).label L

/-! ## Helper lemmas -/

lemma write_eq (c : Console) (p : String) (args : List String) (hp : c.path = some p) :
    c._write args =
      [Event.fileAppend ("./log/" ++ p) (String.intercalate " " args ++ "\n")] := by
  simp [Console._write, hp]

lemma write_guard (c : Console) (args : List String) :
    (match c.path with
     | some _ => c._write args
     | none => ([] : List Event)) = c._write args := by
  cases h : c.path <;> simp [Console._write, h]

lemma fileEvents_color_switch (color : Option String) (args : List String) :
    fileEvents (Console._color_switch color args) = [] := by
  cases color with
  | none => rfl
  | some s =>
    simp only [Console._color_switch, fileEvents,
      apply_ite (List.filter Event.isFile), List.filter_cons, List.filter_nil,
      Event.isFile, Bool.false_eq_true, if_false, ite_self]

lemma termEvents_color_switch (color : Option String) (args : List String) :
    termEvents (Console._color_switch color args) = Console._color_switch color args := by
  cases color with
  | none => rfl
  | some s =>
    simp only [Console._color_switch, termEvents,
      apply_ite (List.filter (fun (e : Event) => !e.isFile))]
    simp [List.filter_cons, List.filter_nil, Event.isFile]

lemma fileEvents_write (c : Console) (args : List String) :
    fileEvents (c._write args) = c._write args := by
  rw [fileEvents, List.filter_eq_self]
  intro e he
  cases h : c.path <;> simp [Console._write, h] at he
  simp [he, Event.isFile]

lemma termEvents_write (c : Console) (args : List String) :
    termEvents (c._write args) = [] := by
  rw [termEvents, List.filter_eq_nil_iff]
  intro e he
  cases h : c.path <;> simp [Console._write, h] at he
  simp [he, Event.isFile]

lemma fileEvents_append (es fs : List Event) :
    fileEvents (es ++ fs) = fileEvents es ++ fileEvents fs := by
  simp [fileEvents, List.filter_append]

lemma termEvents_append (es fs : List Event) :
    termEvents (es ++ fs) = termEvents es ++ termEvents fs := by
  simp [termEvents, List.filter_append]

lemma log_split (c : Console) (args : List String) (color : Option String)
    (lbl : Option String) :
    c.log args color lbl =
      match lbl with
      | some l =>
        if l ∈ c.labels then
          if c.terminal then Console._color_switch color args ++ c._write args
          else c._write args
        else []
      | none =>
        if c.terminal then Console._color_switch color args ++ c._write args
        else c._write args := by
  cases lbl <;> simp only [Console.log, write_guard]

lemma out_split (c : Console) (args : List String) (color : Option String) :
    c.out args color = Console._color_switch color args ++ c._write args := by
  simp only [Console.out, write_guard]

lemma intercalate_go_append (s a₁ a₂ : String) (l : List String) :
    String.intercalate.go (a₁ ++ a₂) s l = a₁ ++ String.intercalate.go a₂ s l := by
  induction l generalizing a₂ with
  | nil => rfl
  | cons b bs ih =>
    rw [String.intercalate.go, String.intercalate.go,
      show a₁ ++ a₂ ++ s ++ b = a₁ ++ (a₂ ++ s ++ b) by
        simp [String.append_assoc]]
    exact ih (a₂ ++ s ++ b)

lemma intercalate_cons (s a b : String) (l : List String) :
    String.intercalate s (a :: b :: l) = a ++ s ++ String.intercalate s (b :: l) := by
  simp only [String.intercalate]
  rw [String.intercalate.go]
  exact intercalate_go_append s (a ++ s) b l

/-! ## The claims -/

/-- Claim C1.  The spec states that every file append performed by
`warning`/`error`, `out` and `log` writes to the file at the path
computed at construction (`directory + <ms-timestamp> + ".log"`, stored
in `self.path`) and to no other path.  The code disagrees with its own
documentation: `_write` rebuilds the destination as
`f"./log/<self.path>"`, prefixing a hardcoded `"./log/"` onto the
already-directory-qualified `self.path`, although the class docstring
declares `path` to be "The path for the current log file".  Evaluated at
a `Console` constructed with the default directory `"./log/"` at
timestamp 7, a `warning` call appends to `"./log/./log/7.log"`, which
differs from the constructed `path` value `"./log/7.log"`. -/
theorem C1_write_path_mismatch :
    appendPaths ((Console.init "./log/" true 7).warning ["x"]) = ["./log/./log/7.log"] ∧
    (Console.init "./log/" true 7).path = some "./log/7.log" ∧
    ("./log/./log/7.log" : String) ≠ "./log/7.log" := by
  decide

/-- Claim C3, as stated, is false at `args = []`: `warning()` appends
`"WARNING:\n"` to the log file (the `" ".join` of the single list element
`"WARNING:"`), not `"WARNING: " ++ joined([]) ++ "\n" = "WARNING: \n"`
as the claim's `"WARNING: " + joined(args)` formula requires. -/
theorem C3_empty_args_counterexample :
    fileEvents ((Console.init "./log/" true 7).warning []) =
      [Event.fileAppend "./log/./log/7.log" "WARNING:\n"] ∧
    ("WARNING:\n" : String) ≠
      "WARNING: " ++ String.intercalate " " ([] : List String) ++ "\n" := by
  decide

/-- Claim C3 (amended).  For every `args` and every `Console` state,
`warning args` prints the bold-magenta prefix and then each argument
followed by a space, and appends `" ".join("WARNING:" :: args) ++ "\n"`
to the log file — which equals `"WARNING: " ++ joined(args) ++ "\n"`
whenever `args` is nonempty (and `"WARNING:\n"` when it is empty) —
and symmetrically for `error` with the bold-red prefix and `"ERROR:"`;
neither the terminal output nor the file append is affected by the
`terminal` or `_log` flags. -/
theorem C3_warn_error_unconditional (c : Console) (p : String) (args : List String)
    (hp : c.path = some p) :
    c.warning args =
      (Event.term "\x1b[1;35mWARNING: \x1b[0m" ::
          args.map (fun a => Event.term (a ++ " "))) ++
        [Event.fileAppend ("./log/" ++ p)
          (String.intercalate " " ("WARNING:" :: args) ++ "\n")] ∧
    c.error args =
      (Event.term "\x1b[1;31mERROR: \x1b[0m" ::
          args.map (fun a => Event.term (a ++ " "))) ++
        [Event.fileAppend ("./log/" ++ p)
          (String.intercalate " " ("ERROR:" :: args) ++ "\n")] ∧
    (∀ t b, ({ c with terminal := t, _log := b } : Console).warning args = c.warning args ∧
        ({ c with terminal := t, _log := b } : Console).error args = c.error args) ∧
    (args ≠ [] →
      String.intercalate " " ("WARNING:" :: args) =
          "WARNING: " ++ String.intercalate " " args ∧
        String.intercalate " " ("ERROR:" :: args) =
          "ERROR: " ++ String.intercalate " " args) := by
  refine ⟨?_, ?_, ?_, ?_⟩
  · simp [Console.warning, write_eq c p _ hp]
  · simp [Console.error, write_eq c p _ hp]
  · intro t b
    constructor <;> simp [Console.warning, Console.error, Console._write]
  · intro h
    match args, h with
    | b :: bs, _ =>
      constructor <;> rw [intercalate_cons] <;> rfl

/-- Witness for C3: a `Console` with directory `"./log/"`, timestamp 7,
`terminal = false`, message `["disk", "full"]`. -/
theorem C3_warn_error_unconditional_witness :
    (Console.init "./log/" false 7).warning ["disk", "full"] =
      [Event.term "\x1b[1;35mWARNING: \x1b[0m", Event.term "disk ", Event.term "full ",
        Event.fileAppend ("./log/" ++ "./log/7.log")
          (String.intercalate " " ["WARNING:", "disk", "full"] ++ "\n")] ∧
    String.intercalate " " ["WARNING:", "disk", "full"] =
      "WARNING: " ++ String.intercalate " " ["disk", "full"] := by
  have h := C3_warn_error_unconditional (Console.init "./log/" false 7) "./log/7.log"
    ["disk", "full"] (by decide)
  exact ⟨h.1, (h.2.2.2 (by decide)).1⟩

/-- Claim C10.  `warning []` and `error []` still print the colored
level prefix to the terminal and append exactly `"WARNING:\n"`
(respectively `"ERROR:\n"`) to the log file: no trailing space and no
message text, unlike the `"LEVEL: message"` shape whose prefix carries a
trailing space. -/
theorem C10_zero_args (c : Console) (p : String) (hp : c.path = some p) :
    c.warning [] = [Event.term "\x1b[1;35mWARNING: \x1b[0m",
      Event.fileAppend ("./log/" ++ p) "WARNING:\n"] ∧
    c.error [] = [Event.term "\x1b[1;31mERROR: \x1b[0m",
      Event.fileAppend ("./log/" ++ p) "ERROR:\n"] ∧
    ("WARNING:\n" : String) ≠ "WARNING: " ++ "\n" ∧
    ("ERROR:\n" : String) ≠ "ERROR: " ++ "\n" := by
  refine ⟨?_, ?_, by decide, by decide⟩ <;>
    simp [Console.warning, Console.error, write_eq c p _ hp, String.intercalate] <;>
    decide

/-- Witness for C10 at a concrete constructed `Console`. -/
theorem C10_zero_args_witness :
    (Console.init "./log/" true 7).warning [] =
      [Event.term "\x1b[1;35mWARNING: \x1b[0m",
        Event.fileAppend ("./log/" ++ "./log/7.log") "WARNING:\n"] :=
  (C10_zero_args (Console.init "./log/" true 7) "./log/7.log" (by decide)).1

lemma write_congr (c₁ c₂ : Console) (args : List String) (h : c₁.path = c₂.path) :
    c₁._write args = c₂._write args := by
  simp only [Console._write, h]

lemma fileEvents_term_cons (s : String) (es : List Event) :
    fileEvents (Event.term s :: es) = fileEvents es := by
  simp [fileEvents, Event.isFile]

lemma fileEvents_term_map_append (args : List String) (es : List Event) :
    fileEvents (args.map (fun a => Event.term (a ++ " ")) ++ es) = fileEvents es := by
  induction args with
  | nil => rfl
  | cons b bs ih => simp [fileEvents, Event.isFile, ih]

lemma fileEvents_warning (c : Console) (args : List String) :
    fileEvents (c.warning args) = c._write ("WARNING:" :: args) := by
  rw [Console.warning, List.cons_append, fileEvents_term_cons, fileEvents_term_map_append,
    fileEvents_write]

lemma fileEvents_error (c : Console) (args : List String) :
    fileEvents (c.error args) = c._write ("ERROR:" :: args) := by
  rw [Console.error, List.cons_append, fileEvents_term_cons, fileEvents_term_map_append,
    fileEvents_write]

lemma fileEvents_out (c : Console) (args : List String) (color : Option String) :
    fileEvents (c.out args color) = c._write args := by
  rw [out_split, fileEvents_append, fileEvents_color_switch, fileEvents_write,
    List.nil_append]

/-- Claim C2.  `log` follows the 2x2 decision table: with no label, or
with a label that is a member of `labels`, the message is appended to
the log file, and the terminal part of the trace is exactly the color
dispatch when `terminal` is true and empty when it is false; with a
label that is not a member of `labels`, the call produces no events at
all. -/
theorem C2_log_decision_table (c : Console) (p : String) (args : List String)
    (color : Option String) (lbl : Option String) (hp : c.path = some p) :
    ((lbl = none ∨ ∃ l, lbl = some l ∧ l ∈ c.labels) →
      fileEvents (c.log args color lbl) =
        [Event.fileAppend ("./log/" ++ p) (String.intercalate " " args ++ "\n")] ∧
      termEvents (c.log args color lbl) =
        (if c.terminal then Console._color_switch color args else [])) ∧
    (∀ l, lbl = some l → l ∉ c.labels → c.log args color lbl = []) := by
  constructor
  · intro hyp
    have hlog : c.log args color lbl =
        (if c.terminal then Console._color_switch color args ++ c._write args
         else c._write args) := by
      rcases hyp with rfl | ⟨l, rfl, hl⟩
      · rw [log_split]
      · rw [log_split]
        exact if_pos hl
    rw [hlog]
    by_cases ht : c.terminal <;>
      simp [ht, fileEvents_append, termEvents_append, fileEvents_color_switch,
        termEvents_color_switch, fileEvents_write, termEvents_write,
        write_eq c p args hp] <;>
      exact ⟨rfl, rfl⟩
  · rintro l rfl hl
    rw [log_split]
    exact if_neg hl

/-- Witness for C2: with `labels = ["A"]`, `log(["msg"], label="B")`
emits nothing, while `log(["msg"], label="A")` appends the joined
message to the log file. -/
theorem C2_log_decision_table_witness :
    ((Console.init "./log/" true 7).label "A").log ["msg"] none (some "B") = [] ∧
    fileEvents (((Console.init "./log/" true 7).label "A").log ["msg"] none (some "A")) =
      [Event.fileAppend ("./log/" ++ "./log/7.log")
        (String.intercalate " " ["msg"] ++ "\n")] := by
  have hb := C2_log_decision_table ((Console.init "./log/" true 7).label "A")
    "./log/7.log" ["msg"] none (some "B") (by decide)
  have ha := C2_log_decision_table ((Console.init "./log/" true 7).label "A")
    "./log/7.log" ["msg"] none (some "A") (by decide)
  exact ⟨hb.2 "B" rfl (by decide), (ha.1 (Or.inr ⟨"A", rfl, by decide⟩)).1⟩

/-- Claim C5.  A present color name outside the twelve recognized names
falls through every branch of `_color_switch` as a silent no-op, while
`out` with such a color still appends the space-joined, newline-terminated
message to the log file. -/
theorem C5_unknown_color (c : Console) (p s : String) (args : List String)
    (hp : c.path = some p) (hs : s ∉ Console.colorNames) :
    Console._color_switch (some s) args = [] ∧
    c.out args (some s) =
      [Event.fileAppend ("./log/" ++ p) (String.intercalate " " args ++ "\n")] := by
  simp only [Console.colorNames, List.mem_cons, List.not_mem_nil, or_false] at hs
  push_neg at hs
  obtain ⟨h1, h2, h3, h4, h5, h6, h7, h8, h9, h10, h11, h12⟩ := hs
  have hcs : Console._color_switch (some s) args = [] := by
    simp [Console._color_switch, h1, h2, h3, h4, h5, h6, h7, h8, h9, h10, h11, h12]
  refine ⟨hcs, ?_⟩
  rw [out_split, hcs, write_eq c p args hp, List.nil_append]

/-- Witness for C5 at the unknown color `"PURPLE"`. -/
theorem C5_unknown_color_witness :
    (Console.init "./log/" true 7).out ["x"] (some "PURPLE") =
      [Event.fileAppend ("./log/" ++ "./log/7.log")
        (String.intercalate " " ["x"] ++ "\n")] :=
  (C5_unknown_color (Console.init "./log/" true 7) "./log/7.log" "PURPLE" ["x"]
    (by decide) (by decide)).2

/-- Claim C6.  Round trip of the log-file format: `_write` performs
exactly one file append per call, whose content is exactly the
space-joined arguments passed to that `write` call followed by a
newline, with nothing (no timestamp, no other field) prepended; every
public operation performs its file appends through `_write`, with `out`
and `log` passing `args` unchanged and `warning`/`error` passing the
level tag followed by `args`, and `log` appends either exactly once or
not at all. -/
theorem C6_round_trip (c : Console) (p : String) (args ws : List String)
    (color : Option String) (hp : c.path = some p) :
    c._write ws =
      [Event.fileAppend ("./log/" ++ p) (String.intercalate " " ws ++ "\n")] ∧
    fileEvents (c.out args color) = c._write args ∧
    fileEvents (c.warning args) = c._write ("WARNING:" :: args) ∧
    fileEvents (c.error args) = c._write ("ERROR:" :: args) ∧
    (∀ lbl, fileEvents (c.log args color lbl) = c._write args ∨
      c.log args color lbl = []) := by
  refine ⟨write_eq c p ws hp, fileEvents_out c args color, fileEvents_warning c args,
    fileEvents_error c args, ?_⟩
  intro lbl
  cases lbl with
  | none =>
    simp only [log_split]
    by_cases ht : c.terminal <;>
      simp [ht, fileEvents_append, fileEvents_color_switch, fileEvents_write]
  | some l =>
    simp only [log_split]
    by_cases hl : l ∈ c.labels
    · rw [if_pos hl]
      by_cases ht : c.terminal <;>
        simp [ht, fileEvents_append, fileEvents_color_switch, fileEvents_write]
    · rw [if_neg hl]
      exact Or.inr rfl

/-- Witness for C6 at a concrete constructed `Console`. -/
theorem C6_round_trip_witness :
    Console._write (Console.init "./log/" true 7) ["a", "b"] =
      [Event.fileAppend ("./log/" ++ "./log/7.log")
        (String.intercalate " " ["a", "b"] ++ "\n")] :=
  (C6_round_trip (Console.init "./log/" true 7) "./log/7.log" [] ["a", "b"] none
    (by decide)).1

lemma addLabels_path (c : Console) (L : String) (n : Nat) :
    (addLabels c L n).path = c.path := by
  induction n with
  | zero => rfl
  | succ k ih => simp [addLabels, Console.label, ih]

lemma addLabels_terminal (c : Console) (L : String) (n : Nat) :
    (addLabels c L n).terminal = c.terminal := by
  induction n with
  | zero => rfl
  | succ k ih => simp [addLabels, Console.label, ih]

lemma mem_addLabels (c : Console) (L : String) (n : Nat) :
    L ∈ (addLabels c L (n + 1)).labels := by
  simp [addLabels, Console.label]

/-- Claim C7.  Registering a label any number of times (at least once)
is idempotent for `log`: the trace of `log(args, color, label=L)` after
`n + 1` registrations of `L` equals the trace after a single
registration, that trace contains exactly one file append, its terminal
part is a single color dispatch (when `terminal` is true, and empty
otherwise) — never duplicated output — and `label` itself never fails
and appends unconditionally. -/
theorem C7_duplicate_labels (c : Console) (p L : String) (args : List String)
    (color : Option String) (n : Nat) (hp : c.path = some p) :
    (addLabels c L (n + 1)).log args color (some L) =
      (c.label L).log args color (some L) ∧
    (fileEvents ((c.label L).log args color (some L))).length = 1 ∧
    termEvents ((c.label L).log args color (some L)) =
      (if c.terminal then Console._color_switch color args else []) ∧
    c.label L = { c with labels := c.labels ++ [L] } := by
  have hmem : L ∈ (addLabels c L (n + 1)).labels := mem_addLabels c L n
  have hmem1 : L ∈ (c.label L).labels := by simp [Console.label]
  have hlog : ∀ c' : Console, L ∈ c'.labels → c'.path = c.path →
      c'.terminal = c.terminal →
      c'.log args color (some L) =
        (if c.terminal then Console._color_switch color args ++ c._write args
         else c._write args) := by
    intro c' hm hp' ht'
    simp only [log_split]
    rw [if_pos hm, ht', write_congr c' c args hp']
  have e1 := hlog (addLabels c L (n + 1)) hmem (addLabels_path c L (n + 1))
    (addLabels_terminal c L (n + 1))
  have e2 := hlog (c.label L) hmem1 rfl rfl
  refine ⟨e1.trans e2.symm, ?_, ?_, rfl⟩
  · rw [e2]
    by_cases ht : c.terminal <;>
      simp [ht, fileEvents_append, fileEvents_color_switch, fileEvents_write,
        write_eq c p args hp] <;>
      rfl
  · rw [e2]
    by_cases ht : c.terminal <;>
      simp [ht, termEvents_append, termEvents_color_switch, termEvents_write]

/-- Witness for C7: registering `"A"` twice, then logging with
`label="A"`, produces the same trace as registering it once. -/
theorem C7_duplicate_labels_witness :
    (addLabels (Console.init "./log/" true 7) "A" 2).log ["msg"] none (some "A") =
      ((Console.init "./log/" true 7).label "A").log ["msg"] none (some "A") ∧
    (fileEvents (((Console.init "./log/" true 7).label "A").log ["msg"] none
      (some "A"))).length = 1 :=
  have h := C7_duplicate_labels (Console.init "./log/" true 7) "./log/7.log" "A"
    ["msg"] none 1 (by decide)
  ⟨h.1, h.2.1⟩

/-- Claim C8.  `out(args, color)` always runs the color dispatch — its
terminal output does not consult `terminal` (nor `_log`) — and always
appends the space-joined, newline-terminated `args` to the log file. -/
theorem C8_out_unconditional (c : Console) (p : String) (args : List String)
    (color : Option String) (hp : c.path = some p) :
    c.out args color =
      Console._color_switch color args ++
        [Event.fileAppend ("./log/" ++ p) (String.intercalate " " args ++ "\n")] ∧
    (∀ t b, ({ c with terminal := t, _log := b } : Console).out args color =
      c.out args color) := by
  refine ⟨?_, ?_⟩
  · rw [out_split, write_eq c p args hp]
  · intro t b
    rw [out_split, out_split, write_congr { c with terminal := t, _log := b } c args rfl]

/-- Witness for C8: `terminal = false` and a recognized color still
dispatch to the terminal and append to the file. -/
theorem C8_out_unconditional_witness :
    (Console.init "./log/" false 7).out ["x"] (some "RED") =
      Console._color_switch (some "RED") ["x"] ++
        [Event.fileAppend ("./log/" ++ "./log/7.log")
          (String.intercalate " " ["x"] ++ "\n")] :=
  (C8_out_unconditional (Console.init "./log/" false 7) "./log/7.log" ["x"]
    (some "RED") (by decide)).1

/-- Claim C9.  Frame invariant over the public operations: no call ever
modifies `directory`, `terminal` or `path`; a `label(l)` call changes
the state exactly by appending `l` to `labels`, a `set_log(b)` call
exactly by assigning `_log := b`, and every other call leaves the state
entirely unchanged. -/
theorem C9_frame_invariant (c : Console) (cmd : Cmd) :
    (step c cmd).2.directory = c.directory ∧
    (step c cmd).2.terminal = c.terminal ∧
    (step c cmd).2.path = c.path ∧
    (∀ l, cmd = Cmd.label l → (step c cmd).2 = { c with labels := c.labels ++ [l] }) ∧
    (∀ b, cmd = Cmd.set_log b → (step c cmd).2 = { c with _log := b }) ∧
    ((∀ l, cmd ≠ Cmd.label l) → (∀ b, cmd ≠ Cmd.set_log b) → (step c cmd).2 = c) := by
  cases cmd with
  | warning a =>
    exact ⟨rfl, rfl, rfl, fun l h => Cmd.noConfusion h,
      fun b h => Cmd.noConfusion h, fun _ _ => rfl⟩
  | error a =>
    exact ⟨rfl, rfl, rfl, fun l h => Cmd.noConfusion h,
      fun b h => Cmd.noConfusion h, fun _ _ => rfl⟩
  | out a col =>
    exact ⟨rfl, rfl, rfl, fun l h => Cmd.noConfusion h,
      fun b h => Cmd.noConfusion h, fun _ _ => rfl⟩
  | log a col lbl =>
    exact ⟨rfl, rfl, rfl, fun l h => Cmd.noConfusion h,
      fun b h => Cmd.noConfusion h, fun _ _ => rfl⟩
  | label l =>
    refine ⟨rfl, rfl, rfl, ?_, fun b h => Cmd.noConfusion h, ?_⟩
    · rintro l' h
      cases h
      rfl
    · intro h _
      exact absurd rfl (h l)
  | set_log b =>
    refine ⟨rfl, rfl, rfl, fun l h => Cmd.noConfusion h, ?_, ?_⟩
    · rintro b' h
      cases h
      rfl
    · intro _ h
      exact absurd rfl (h b)

/-- Witness for C9 at concrete calls: a `label` call, a `set_log` call
and a `warning` call. -/
theorem C9_frame_invariant_witness :
    (step (Console.init "./log/" true 7) (Cmd.label "A")).2 =
      { Console.init "./log/" true 7 with
        labels := (Console.init "./log/" true 7).labels ++ ["A"] } ∧
    (step (Console.init "./log/" true 7) (Cmd.set_log false)).2 =
      { Console.init "./log/" true 7 with _log := false } ∧
    (step (Console.init "./log/" true 7) (Cmd.warning ["x"])).2 =
      Console.init "./log/" true 7 :=
  ⟨(C9_frame_invariant (Console.init "./log/" true 7) (Cmd.label "A")).2.2.2.1 "A" rfl,
   (C9_frame_invariant (Console.init "./log/" true 7) (Cmd.set_log false)).2.2.2.2.1
     false rfl,
   (C9_frame_invariant (Console.init "./log/" true 7) (Cmd.warning ["x"])).2.2.2.2.2
     (fun _ h => Cmd.noConfusion h) (fun _ h => Cmd.noConfusion h)⟩

lemma sameModuloSetLog_spec (k₁ k₂ : Cmd) (hk : sameModuloSetLog k₁ k₂ = true) :
    k₁ = k₂ ∨ ∃ b₁ b₂, k₁ = Cmd.set_log b₁ ∧ k₂ = Cmd.set_log b₂ := by
  cases k₁ <;> cases k₂ <;>
    first
      | exact Or.inr ⟨_, _, rfl, rfl⟩
      | exact Or.inl (of_decide_eq_true hk)

lemma step_agree_same (c₁ c₂ : Console) (hc : agreeExceptLog c₁ c₂) (k : Cmd) :
    (step c₁ k).1 = (step c₂ k).1 ∧ agreeExceptLog (step c₁ k).2 (step c₂ k).2 := by
  obtain ⟨hd, ht, hp, hl⟩ := hc
  cases k with
  | warning a =>
    refine ⟨?_, hd, ht, hp, hl⟩
    show c₁.warning a = c₂.warning a
    simp only [Console.warning]
    rw [write_congr c₁ c₂ _ hp]
  | error a =>
    refine ⟨?_, hd, ht, hp, hl⟩
    show c₁.error a = c₂.error a
    simp only [Console.error]
    rw [write_congr c₁ c₂ _ hp]
  | out a col =>
    refine ⟨?_, hd, ht, hp, hl⟩
    show c₁.out a col = c₂.out a col
    rw [out_split, out_split, write_congr c₁ c₂ _ hp]
  | log a col lbl =>
    refine ⟨?_, hd, ht, hp, hl⟩
    show c₁.log a col lbl = c₂.log a col lbl
    rw [log_split, log_split, ht, hl, write_congr c₁ c₂ _ hp]
  | label l =>
    refine ⟨rfl, hd, ht, hp, ?_⟩
    show c₁.labels ++ [l] = c₂.labels ++ [l]
    rw [hl]
  | set_log b =>
    exact ⟨rfl, hd, ht, hp, hl⟩

/-- Claim C4.  The observable output is independent of the `_log` flag:
any two call sequences that are identical except for the booleans
passed to `set_log`, run from any two states that agree on everything
but `_log`, produce identical event traces (hence identical terminal
output and identical log-file contents); and a `set_log` call itself
emits no events and only assigns `_log`. -/
theorem C4_set_log_noninterference (c₁ c₂ : Console) (cmds₁ cmds₂ : List Cmd)
    (hc : agreeExceptLog c₁ c₂) (h : sameCmdsModuloSetLog cmds₁ cmds₂ = true) :
    run c₁ cmds₁ = run c₂ cmds₂ ∧
    (∀ (c : Console) (b : Bool), (step c (Cmd.set_log b)).1 = [] ∧
      (step c (Cmd.set_log b)).2 = { c with _log := b }) := by
  have main : ∀ (l₁ l₂ : List Cmd) (d₁ d₂ : Console), agreeExceptLog d₁ d₂ →
      sameCmdsModuloSetLog l₁ l₂ = true → run d₁ l₁ = run d₂ l₂ := by
    intro l₁
    induction l₁ with
    | nil =>
      intro l₂ d₁ d₂ hd hl
      cases l₂ with
      | nil => rfl
      | cons k t => simp [sameCmdsModuloSetLog] at hl
    | cons k₁ t₁ ih =>
      intro l₂ d₁ d₂ hd hl
      cases l₂ with
      | nil => simp [sameCmdsModuloSetLog] at hl
      | cons k₂ t₂ =>
        simp only [sameCmdsModuloSetLog, Bool.and_eq_true] at hl
        obtain ⟨hk, htail⟩ := hl
        rcases sameModuloSetLog_spec k₁ k₂ hk with rfl | ⟨b₁, b₂, rfl, rfl⟩
        · have hs := step_agree_same d₁ d₂ hd k₁
          show (step d₁ k₁).1 ++ run (step d₁ k₁).2 t₁ =
            (step d₂ k₁).1 ++ run (step d₂ k₁).2 t₂
          rw [hs.1]
          exact congrArg _ (ih t₂ _ _ hs.2 htail)
        · show [] ++ run (d₁.set_log b₁) t₁ = [] ++ run (d₂.set_log b₂) t₂
          rw [List.nil_append, List.nil_append]
          exact ih t₂ _ _ hd htail
  exact ⟨main cmds₁ cmds₂ c₁ c₂ hc h, fun c b => ⟨rfl, rfl⟩⟩

/-- Witness for C4: the same calls with `set_log(False)` versus
`set_log(True)` produce the same trace. -/
theorem C4_set_log_noninterference_witness :
    run (Console.init "./log/" true 7)
      [Cmd.set_log false, Cmd.log ["m"] none none, Cmd.warning ["w"],
        Cmd.error ["e"], Cmd.out ["o"] none] =
    run (Console.init "./log/" true 7)
      [Cmd.set_log true, Cmd.log ["m"] none none, Cmd.warning ["w"],
        Cmd.error ["e"], Cmd.out ["o"] none] :=
  (C4_set_log_noninterference (Console.init "./log/" true 7)
    (Console.init "./log/" true 7) _ _ ⟨rfl, rfl, rfl, rfl⟩ (by decide)).1
